import Mathlib

/-!
Shallow embedding of the memory indexer of the `innie` repository
(`src/unnamed/part_011`, lines 1–655: the module built on Vectra and
`embeddings.ts`), together with theorems checking the natural-language
specification against it.

Modelling conventions:
* JavaScript strings are modelled as Lean `String`.
* Similarity scores are modelled as `ℚ` (the source compares them with `>`
  against the literal `0.4`).
* The external embedding service (`embed` / `embedBatch`) and the vector
  store's similarity measure are abstracted as function parameters
  (`embedF`, `sim`); spec §6 treats both as black-box services.
* The vector store (Vectra `LocalIndex`) is modelled as a list of indexed
  items; `upsertItem` replaces the entry with the same id or appends,
  `getItem` is lookup by id, and `queryItems(v, k)` returns the `k` stored
  items with the highest similarity to `v`, best first (spec §6 contract:
  `query(vector, k) -> ranked [{id, score, metadata}]`).
* `JSON.parse` is a JavaScript builtin; journal-line parsing is abstracted
  as a parameter `parse : String → Option JournalEntry` where `none` models
  a thrown exception on malformed JSON.
-/

namespace Innie

/-- Item types for filtering (`MemoryItemType` in the source, a closed union
of six string literals). -/
inductive MemoryItemType where
  | journal
  | state
  | project
  | person
  | meeting
  | topic
deriving DecidableEq, Repr

/-- The string a `MemoryItemType` interpolates to in a JS template literal
(the union members are themselves these strings). -/
def mtStr : MemoryItemType → String
  | .journal => "journal"
  | .state => "state"
  | .project => "project"
  | .person => "person"
  | .meeting => "meeting"
  | .topic => "topic"

/-- `MemoryItem` interface from the source: the atomic indexed unit.
`sec?` models the optional `section` field and `timestamp?` the optional
`timestamp` field. -/
structure MemoryItem where
  id : String
  type : MemoryItemType
  content : String
  source : String
  sec? : Option String
  timestamp? : Option String
deriving DecidableEq, Repr

/-- `JournalEntry` interface from the source: one line of `journal.jsonl`. -/
structure JournalEntry where
  timestamp : String
  topic : String
  agentIntent? : Option String
  content : String
deriving DecidableEq, Repr

/-- The flattened metadata record the source stores with each vector
(`type`, `content`, `source` always; `section` and `timestamp` only when
truthy on the `MemoryItem`). -/
structure Metadata where
  type : MemoryItemType
  content : String
  source : String
  sec? : Option String
  timestamp? : Option String
deriving DecidableEq, Repr

/-- One entry of the vector store: `{id, vector, metadata}` as passed to
Vectra's `upsertItem`. -/
structure IndexedItem where
  id : String
  vector : List ℚ
  metadata : Metadata
deriving DecidableEq, Repr

/-- A query hit as returned by Vectra's `queryItems`: the stored item plus
its similarity score. -/
structure ScoredItem where
  item : IndexedItem
  score : ℚ
deriving DecidableEq, Repr

/-- `RelatedItem` interface from the source: compact related-item record
with `id, type, source, snippet, score`. -/
structure RelatedItem where
  id : String
  type : MemoryItemType
  source : String
  snippet : String
  score : ℚ
deriving DecidableEq, Repr

/-- The record `getEntryWithRelated` actually builds for each related entry:
unlike the declared `RelatedItem` interface, its `.map` produces objects with
`id`, `type`, `snippet` and `score` only — no `source` field. -/
structure EntryRelated where
  id : String
  type : MemoryItemType
  snippet : String
  score : ℚ
deriving DecidableEq, Repr

/-- `SearchResult` interface from the source. -/
structure SearchResult where
  id? : Option String
  content : String
  source : String
  sec? : Option String
  timestamp? : Option String
  type : MemoryItemType
  score : ℚ
  related? : Option (List RelatedItem)
deriving DecidableEq, Repr

/-- Options record of `searchMemory`. -/
structure SearchOptions where
  limit? : Option Nat := none
  type? : Option MemoryItemType := none
  since? : Option String := none
  includeRelated? : Option Bool := none
deriving DecidableEq, Repr

/-! ### JavaScript string helpers -/

/-- Characters removed by JavaScript `String.prototype.trim` (WhiteSpace and
LineTerminator code points). -/
def jsWsChars : List Char :=
  [' ', '\t', '\n', '\r', '\x0b', '\x0c', '\u00a0', '\u1680',
   '\u2000', '\u2001', '\u2002', '\u2003', '\u2004', '\u2005', '\u2006',
   '\u2007', '\u2008', '\u2009', '\u200a', '\u2028', '\u2029', '\u202f',
   '\u205f', '\u3000', '\ufeff']

/-- Is `c` JavaScript whitespace? -/
def jsWs (c : Char) : Bool := jsWsChars.contains c

/-- JavaScript `s.trim()`. -/
def jsTrim (s : String) : String :=
  ⟨((s.data.dropWhile jsWs).reverse.dropWhile jsWs).reverse⟩

/-- JavaScript `s.split(/^## /m)` on the character list: cut the text at
every occurrence of `"## "` that sits at the start of the input or directly
after a `'\n'`; the separator is consumed.  The flag records whether the
current position is a line start. -/
def splitMdFrom : Bool → List Char → List (List Char)
  | true, '#' :: '#' :: ' ' :: rest => [] :: splitMdFrom false rest
  | _, [] => [[]]
  | _, c :: rest =>
    match splitMdFrom (c == '\n') rest with
    | [] => [[c]]
    | h :: t => (c :: h) :: t

/-- JavaScript `content.split(/^## /m)` (the split used by the chunker). -/
def splitMdSections (s : String) : List String :=
  (splitMdFrom true s.data).map fun cs => ⟨cs⟩

/-- JavaScript `s.split(sep)` for a one-character separator `sep`. -/
def splitOnChar (sep : Char) : List Char → List (List Char)
  | [] => [[]]
  | c :: rest =>
    if c = sep then [] :: splitOnChar sep rest
    else
      match splitOnChar sep rest with
      | [] => [[c]]
      | h :: t => (c :: h) :: t

/-- JavaScript `filePath.split("/").pop() || filePath`. -/
def jsBasename (p : String) : String :=
  let last := ((splitOnChar '/' p.data).map fun cs => (⟨cs⟩ : String)).getLastD ""
  if last = "" then p else last

/-- JavaScript `content.slice(0, n) + (content.length > n ? "..." : "")`,
the snippet truncation used for related items. -/
def jsSnippet (n : Nat) (content : String) : String :=
  (⟨content.data.take n⟩ : String) ++ (if n < content.length then "..." else "")

/-- JavaScript `content.trim().split("\n").filter(Boolean)`: the journal
file is cut into its non-empty lines. -/
def jsLines (content : String) : List String :=
  (((splitOnChar '\n' (jsTrim content).data)).map fun cs => (⟨cs⟩ : String)).filter (· ≠ "")

/-! ### The chunker of `indexFile` -/

/-- The `for (let i = 1; i < sections.length; i++)` loop of `indexFile`:
each non-empty section contributes an item whose title is the section's
first line and whose body is the trimmed remainder; sections with an empty
trimmed body are dropped (`if (sectionContent)`), and the running index `i`
advances on every section, dropped or not. -/
def sectionLoop (t : MemoryItemType) (src fn : String) : Nat → List String → List MemoryItem
  | _, [] => []
  | i, s :: rest =>
    if s = "" then sectionLoop t src fn (i + 1) rest
    else
      let firstLine := s.data.takeWhile fun ch => ch != '\n'
      let sectionTitle := jsTrim ⟨firstLine⟩
      let sectionContent := jsTrim ⟨s.data.drop firstLine.length⟩
      if sectionContent = "" then sectionLoop t src fn (i + 1) rest
      else
        ⟨mtStr t ++ "-" ++ fn ++ "-" ++ toString i, t,
         "## " ++ sectionTitle ++ "\n\n" ++ sectionContent,
         src, some sectionTitle, none⟩ :: sectionLoop t src fn (i + 1) rest

/-- The list of `MemoryItem`s built by `indexFile(filePath, content, type)`
(source lines 591–655): a topic file becomes a single whole-file item;
any other type is split at `## ` headings into an optional preamble item
plus one item per non-empty section. -/
def indexFileItems (filePath content : String) (t : MemoryItemType) : List MemoryItem :=
  let filename := jsBasename filePath
  if t = .topic then
    [⟨"topic-" ++ filename, .topic, jsTrim content, filePath, none, none⟩]
  else
    let sections := splitMdSections content
    let preamble :=
      if jsTrim (sections.headD "") ≠ "" then
        [⟨mtStr t ++ "-" ++ filename ++ "-preamble", t,
          jsTrim (sections.headD ""), filePath, some "preamble", none⟩]
      else []
    preamble ++ sectionLoop t filePath filename 1 (sections.drop 1)

/-- The `{itemCount}` value returned by `indexFile`: `1` for a topic file
(early return), otherwise `items.length`. -/
def indexFileCount (filePath content : String) (t : MemoryItemType) : Nat :=
  if t = .topic then 1 else (indexFileItems filePath content t).length

/-! ### Vector store model -/

/-- A JavaScript truthiness test on an optional string field: the source
guards `if (item.section)` / `if (item.timestamp)`, so an empty string is
dropped like an absent one. -/
def jsTruthy : Option String → Option String
  | some s => if s = "" then none else some s
  | none => none

/-- The metadata record `indexItem` / `indexItems` build for a `MemoryItem`:
`type`, `content` and `source` always, `section` and `timestamp` only when
truthy. -/
def toMetadata (it : MemoryItem) : Metadata :=
  ⟨it.type, it.content, it.source, jsTruthy it.sec?, jsTruthy it.timestamp?⟩

/-- Vectra `upsertItem`: replace the entry with the same id, or append a new
entry (spec §6: `upsert(id, vector, metadata)` on a key→(vector, metadata)
map). -/
def upsertItem (store : List IndexedItem) (it : IndexedItem) : List IndexedItem :=
  if store.any fun e => decide (e.id = it.id) then
    store.map fun e => if e.id = it.id then it else e
  else store ++ [it]

/-- Upsert a list of items in order (the loop bodies of `indexItems` and of
successive `indexItem` calls). -/
def upsertList (store : List IndexedItem) (items : List IndexedItem) : List IndexedItem :=
  items.foldl upsertItem store

/-- The vector-store entry `indexItem(item)` upserts: id, embedded content,
flattened metadata. -/
def toIndexed (embedF : String → List ℚ) (it : MemoryItem) : IndexedItem :=
  ⟨it.id, embedF it.content, toMetadata it⟩

/-- Store effect of `indexItems(items)` (and of `indexItem` for a singleton):
embed every content and upsert each `{id, vector, metadata}` in order. -/
def indexItemsStore (embedF : String → List ℚ) (store : List IndexedItem)
    (items : List MemoryItem) : List IndexedItem :=
  upsertList store (items.map (toIndexed embedF))

/-- Store effect of `indexFile(filePath, content, type)`: build the items
(one whole-file item for a topic, chunked items otherwise) and upsert them
all. -/
def indexFileStore (embedF : String → List ℚ) (store : List IndexedItem)
    (filePath content : String) (t : MemoryItemType) : List IndexedItem :=
  indexItemsStore embedF store (indexFileItems filePath content t)

/-- Vectra `getItem(id)`: lookup by id. -/
def getItem (store : List IndexedItem) (id : String) : Option IndexedItem :=
  store.find? fun e => decide (e.id = id)

/-- Model of the external vector store's `queryItems(vector, topK)`
(spec §6: `query(vector, k) -> ranked [{id, score, metadata}]`): score every
stored item with the black-box similarity `sim` and return the `k` best,
highest score first. -/
def queryItems (sim : List ℚ → List ℚ → ℚ) (store : List IndexedItem)
    (v : List ℚ) (k : Nat) : List ScoredItem :=
  ((store.map fun it => ScoredItem.mk it (sim v it.vector)).insertionSort
    fun a b => b.score ≤ a.score).take k

/-! ### Search & relatedness engine -/

/-- The similarity floor `0.4` of the related-item filters, as an exact
rational. -/
def simFloor : ℚ := mkRat 4 10

/-- The post-retrieval filter of `searchMemory` (source lines 176–182):
reject a mismatching `type`; reject a `timestamp` strictly below `since`,
but only when the item has a timestamp at all. -/
def searchFilter (ty? : Option MemoryItemType) (since? : Option String)
    (r : ScoredItem) : Bool :=
  (match ty? with
   | some t => decide (r.item.metadata.type = t)
   | none => true) &&
  (match since?, r.item.metadata.timestamp? with
   | some s, some ts => !(decide (ts < s))
   | _, _ => true)

/-- Conversion of a surviving candidate into a `RelatedItem` (source lines
216–227): snippet is an 80-character content prefix with an ellipsis when
truncated. -/
def toRelatedItem (rel : ScoredItem) : RelatedItem :=
  ⟨rel.item.id, rel.item.metadata.type, rel.item.metadata.source,
   jsSnippet 80 rel.item.metadata.content, rel.score⟩

/-- The relatedness expansion of `searchMemory` for one primary result
(source lines 204–228): query 8 nearest neighbours of the result's own
content embedding, drop the result's own id, every id already returned and
every score ≤ 0.4, keep at most 3. -/
def relatedFor (embedF : String → List ℚ) (sim : List ℚ → List ℚ → ℚ)
    (store : List IndexedItem) (returnedIds : List String) (r : ScoredItem) :
    List RelatedItem :=
  let itemVector := embedF r.item.metadata.content
  let related := queryItems sim store itemVector 8
  ((related.filter fun rel =>
      !(decide (rel.item.id = r.item.id)) &&
      !(decide (rel.item.id ∈ returnedIds)) &&
      decide (simFloor < rel.score)).take 3).map toRelatedItem

/-- The primary hit list of `searchMemory` (source lines 168–185): retrieve
`limit * 2` nearest neighbours of the query embedding, filter only when a
`type` or `since` option was given, and truncate to `limit`. -/
def searchTop (embedF : String → List ℚ) (sim : List ℚ → List ℚ → ℚ)
    (store : List IndexedItem) (query : String) (options : SearchOptions) :
    List ScoredItem :=
  let limit := options.limit?.getD 5
  let queryVector := embedF query
  let results := queryItems sim store queryVector (limit * 2)
  let filtered :=
    if options.type?.isSome || options.since?.isSome then
      results.filter (searchFilter options.type? options.since?)
    else results
  filtered.take limit

/-- `searchMemory(query, options)` (source lines 149–233): empty-store
short-circuit, then the primary hits of `searchTop`, each turned into a
`SearchResult` with related items attached unless `includeRelated` is
false. -/
def searchMemory (embedF : String → List ℚ) (sim : List ℚ → List ℚ → ℚ)
    (store : List IndexedItem) (query : String) (options : SearchOptions) :
    List SearchResult :=
  let includeRelated := options.includeRelated?.getD true
  if store.isEmpty then []
  else
    let topResults := searchTop embedF sim store query options
    let returnedIds := topResults.map fun r => r.item.id
    topResults.map fun r =>
      ⟨some r.item.id, r.item.metadata.content, r.item.metadata.source,
       r.item.metadata.sec?, r.item.metadata.timestamp?, r.item.metadata.type,
       r.score,
       if includeRelated then some (relatedFor embedF sim store returnedIds r)
       else none⟩

/-- `getEntryWithRelated(id)` (source lines 538–582): direct lookup by id;
on a hit, a second query with fan-out 6, dropping the entry's own id and
scores ≤ 0.4, keeping at most 5, each mapped to a record with a
100-character snippet and no `source` field. -/
def getEntryWithRelated (embedF : String → List ℚ) (sim : List ℚ → List ℚ → ℚ)
    (store : List IndexedItem) (id : String) :
    Option SearchResult × List EntryRelated :=
  match getItem store id with
  | none => (none, [])
  | some item =>
    let meta := item.metadata
    let content := meta.content
    let entry : SearchResult :=
      ⟨some item.id, content, meta.source, meta.sec?, meta.timestamp?, meta.type, 1, none⟩
    let itemVector := embedF content
    let similar := queryItems sim store itemVector 6
    let related :=
      ((similar.filter fun rel =>
          !(decide (rel.item.id = id)) && decide (simFloor < rel.score)).take 5).map
        fun rel =>
          (⟨rel.item.id, rel.item.metadata.type,
            jsSnippet 100 rel.item.metadata.content, rel.score⟩ : EntryRelated)
    (some entry, related)

/-! ### Journal indexing during rebuild -/

/-- The journal loop of `rebuildIndex` (source lines 472–490): lines are
processed in order and each parsed entry is indexed; a `JSON.parse` failure
throws, and the `try/catch` wrapping the whole loop swallows the exception,
so the loop stops at the first malformed line. -/
def journalScan (parse : String → Option JournalEntry) :
    List String → List JournalEntry
  | [] => []
  | l :: rest =>
    match parse l with
    | some entry => entry :: journalScan parse rest
    | none => []

/-- `journalCount` as computed by `rebuildIndex`: the number of journal
entries actually indexed from the journal file (`none` models a missing
file, also swallowed by the `catch`). -/
def rebuildJournalCount (parse : String → Option JournalEntry)
    (journal? : Option String) : Nat :=
  match journal? with
  | none => 0
  | some content => (journalScan parse (jsLines content)).length

/-- The `{itemCount}` returned by `rebuildIndex`:
`nonJournalItems.length + journalCount`.  `rebuildIndex` is total — it
returns this value rather than raising, whatever the journal contains. -/
def rebuildItemCount (nonJournalCount : Nat) (parse : String → Option JournalEntry)
    (journal? : Option String) : Nat :=
  nonJournalCount + rebuildJournalCount parse journal?

/-- Store effect of `indexJournalEntry(entry)` (source lines 504–524). -/
def indexJournalEntry (embedF : String → List ℚ) (store : List IndexedItem)
    (entry : JournalEntry) : List IndexedItem :=
  let content := "[" ++ entry.topic ++ "] " ++ entry.content
  upsertItem store
    ⟨"journal-" ++ entry.timestamp, embedF content,
     ⟨.journal, content, "journal.jsonl", none, some entry.timestamp⟩⟩

/-! ### Concrete instances for counterexamples and witnesses -/

/-- Constant embedding for concrete stores (the embedding service is a
black box; any fixed vector works for these instances). -/
def cEmbed : String → List ℚ := fun _ => [1]

/-- Constant similarity: every stored item scores 1 against any query. -/
def cSim : List ℚ → List ℚ → ℚ := fun _ _ => 1

/-- A store entry with the given id, type, content and timestamp. -/
def mkIt (i : String) (ty : MemoryItemType) (c : String) (ts : Option String) :
    IndexedItem :=
  ⟨i, [1], ⟨ty, c, "src-" ++ i, none, ts⟩⟩

/-- A one-item store holding a journal entry. -/
def cStore1 : List IndexedItem :=
  [mkIt "a" .journal "hello world" (some "2024-01-01")]

/-- The search result `searchMemory` produces for the single item of
`cStore1` (its own id is excluded from its related list, which is
therefore empty). -/
def resA : SearchResult :=
  ⟨some "a", "hello world", "src-a", none, some "2024-01-01", .journal, 1, some []⟩

/-- A six-item store: five neighbours of `e0` survive the relatedness
filter of `getEntryWithRelated`. -/
def cStore6 : List IndexedItem :=
  [mkIt "e0" .journal "c0" none, mkIt "e1" .journal "c1" none,
   mkIt "e2" .journal "c2" none, mkIt "e3" .journal "c3" none,
   mkIt "e4" .journal "c4" none, mkIt "e5" .journal "c5" none]

/-- The `e0` entry of `cStore6`. -/
def itE0 : IndexedItem := mkIt "e0" .journal "c0" none

/-- A scored item whose metadata has no timestamp (a file-derived item). -/
def rNoTs : ScoredItem := ⟨⟨"f", [1], ⟨.project, "body", "f.md", none, none⟩⟩, 1⟩

/-- First well-formed journal line of the counterexample journal. -/
def gLine1 : String :=
  "\x7b\"timestamp\":\"2024-01-01T10:00:00Z\",\"topic\":\"build\",\"content\":\"shipped v1\"\x7d"

/-- Second well-formed journal line of the counterexample journal. -/
def gLine2 : String :=
  "\x7b\"timestamp\":\"2024-01-02T10:00:00Z\",\"topic\":\"build\",\"content\":\"shipped v2\"\x7d"

/-- The record `JSON.parse` yields for `gLine1`. -/
def gEntry1 : JournalEntry := ⟨"2024-01-01T10:00:00Z", "build", none, "shipped v1"⟩

/-- The record `JSON.parse` yields for `gLine2`. -/
def gEntry2 : JournalEntry := ⟨"2024-01-02T10:00:00Z", "build", none, "shipped v2"⟩

/-- Modelled from the spec: `JSON.parse` (a JavaScript builtin, not part of
this repository) restricted to the journal lines of the counterexample —
the two well-formed JSON object lines parse to their records, and the line
`"oops not json"` (like any other non-JSON text) throws, modelled as
`none`. -/
def cParse : String → Option JournalEntry := fun l =>
  if l = gLine1 then some gEntry1
  else if l = gLine2 then some gEntry2
  else none

/-- A journal file whose middle line is malformed. -/
def cJournal : String := gLine1 ++ "\n" ++ "oops not json" ++ "\n" ++ gLine2


/-! ### Lemmas: upsert semantics of the store -/

/-- Some entry of the store carries id `i`. -/
def keyMem (store : List IndexedItem) (i : String) : Prop :=
  ∃ e ∈ store, e.id = i

/-- The entry of `L` that wins an upsert race for id `i`: the last element
of `L` whose id is `i`. -/
def lastAssign : List IndexedItem → String → Option IndexedItem
  | [], _ => none
  | x :: T, i =>
    match lastAssign T i with
    | some y => some y
    | none => if x.id = i then some x else none

theorem upsertList_nil (s : List IndexedItem) : upsertList s [] = s := rfl

theorem upsertList_cons (s : List IndexedItem) (x : IndexedItem) (T : List IndexedItem) :
    upsertList s (x :: T) = upsertList (upsertItem s x) T := rfl

theorem any_eq_keyMem (s : List IndexedItem) (i : String) :
    (s.any fun e => decide (e.id = i)) = true ↔ keyMem s i := by
  simp [keyMem, List.any_eq_true]

theorem keyMem_upsertItem (s : List IndexedItem) (x : IndexedItem) (j : String) :
    keyMem (upsertItem s x) j ↔ keyMem s j ∨ x.id = j := by
  unfold upsertItem
  split
  · next h =>
    rw [any_eq_keyMem] at h
    obtain ⟨e₀, he₀, hid₀⟩ := h
    constructor
    · rintro ⟨e, he, hid⟩
      obtain ⟨a, ha, rfl⟩ := List.mem_map.mp he
      by_cases hax : a.id = x.id
      · simp only [hax, if_pos rfl] at hid
        exact Or.inr hid
      · rw [if_neg hax] at hid
        exact Or.inl ⟨a, ha, hid⟩
    · rintro (⟨e, he, hid⟩ | hxj)
      · refine ⟨if e.id = x.id then x else e, List.mem_map.mpr ⟨e, he, rfl⟩, ?_⟩
        by_cases hex : e.id = x.id
        · rw [if_pos hex, ← hex, hid]
        · rw [if_neg hex, hid]
      · refine ⟨if e₀.id = x.id then x else e₀, List.mem_map.mpr ⟨e₀, he₀, rfl⟩, ?_⟩
        rw [if_pos hid₀, hxj]
  · next h =>
    simp [keyMem, List.mem_append, or_and_right, exists_or]

theorem keyMem_upsertList (s : List IndexedItem) (L : List IndexedItem) (j : String) :
    keyMem (upsertList s L) j ↔ keyMem s j ∨ ∃ y ∈ L, y.id = j := by
  induction L generalizing s with
  | nil => simp [upsertList_nil]
  | cons x T ih =>
    rw [upsertList_cons, ih, keyMem_upsertItem]
    simp [or_assoc]

theorem upsertItem_of_keyMem {s : List IndexedItem} {x : IndexedItem}
    (h : keyMem s x.id) :
    upsertItem s x = s.map fun e => if e.id = x.id then x else e := by
  unfold upsertItem
  rw [if_pos ((any_eq_keyMem s x.id).mpr h)]

theorem lastAssign_eq_none {L : List IndexedItem} {i : String}
    (h : lastAssign L i = none) : ∀ y ∈ L, y.id ≠ i := by
  induction L with
  | nil => simp
  | cons x T ih =>
    intro y hy
    unfold lastAssign at h
    rcases hT : lastAssign T i with _ | z
    · rw [hT] at h
      simp only at h
      rcases List.mem_cons.mp hy with rfl | hyT
      · intro hxi
        rw [if_pos hxi] at h
        exact Option.some_ne_none _ h
      · exact ih hT y hyT
    · rw [hT] at h
      simp at h

theorem mem_upsertItem {s : List IndexedItem} {x e : IndexedItem}
    (he : e ∈ upsertItem s x) : e ∈ s ∨ e = x := by
  unfold upsertItem at he
  split at he
  · obtain ⟨a, ha, rfl⟩ := List.mem_map.mp he
    by_cases hax : a.id = x.id
    · rw [if_pos hax]
      exact Or.inr rfl
    · rw [if_neg hax]
      exact Or.inl ha
  · rcases List.mem_append.mp he with h | h
    · exact Or.inl h
    · exact Or.inr (List.mem_singleton.mp h)

theorem eq_of_mem_upsertItem_id {s : List IndexedItem} {x e : IndexedItem}
    (he : e ∈ upsertItem s x) (hid : e.id = x.id) : e = x := by
  unfold upsertItem at he
  split at he
  · obtain ⟨a, ha, rfl⟩ := List.mem_map.mp he
    by_cases hax : a.id = x.id
    · rw [if_pos hax]
    · rw [if_neg hax] at hid ⊢
      exact absurd hid hax
  · next h =>
    rw [any_eq_keyMem] at h
    rcases List.mem_append.mp he with hs | hx
    · exact absurd ⟨e, hs, hid⟩ h
    · exact List.mem_singleton.mp hx

theorem mem_upsertList_of_no_key {L : List IndexedItem} {s : List IndexedItem}
    {e : IndexedItem} {i : String} (hL : ∀ y ∈ L, y.id ≠ i)
    (he : e ∈ upsertList s L) (hid : e.id = i) : e ∈ s := by
  induction L generalizing s with
  | nil => exact he
  | cons x T ih =>
    rw [upsertList_cons] at he
    have hmem := ih (fun y hy => hL y (List.mem_cons_of_mem x hy)) he
    rcases mem_upsertItem hmem with h | rfl
    · exact h
    · exact absurd hid (hL e (List.mem_cons_self e T))

theorem entry_eq_lastAssign {L : List IndexedItem} {s : List IndexedItem}
    {e y : IndexedItem} (he : e ∈ upsertList s L)
    (hy : lastAssign L e.id = some y) : e = y := by
  induction L generalizing s with
  | nil => simp [lastAssign] at hy
  | cons x T ih =>
    rw [upsertList_cons] at he
    unfold lastAssign at hy
    rcases hT : lastAssign T e.id with _ | z
    · rw [hT] at hy
      simp only at hy
      by_cases hxe : x.id = e.id
      · rw [if_pos hxe] at hy
        have hnoT : ∀ z ∈ T, z.id ≠ e.id := lastAssign_eq_none hT
        have hmem : e ∈ upsertItem s x := mem_upsertList_of_no_key hnoT he rfl
        have := eq_of_mem_upsertItem_id hmem hxe.symm
        rw [this, Option.some_inj.mp hy]
      · rw [if_neg hxe] at hy
        exact absurd hy (Option.some_ne_none y).symm
    · rw [hT] at hy
      have hzy : z = y := by simpa using hy
      subst hzy
      exact ih he hT

theorem upsertList_eq_map_of_all (L : List IndexedItem) (s : List IndexedItem)
    (h : ∀ y ∈ L, keyMem s y.id) :
    upsertList s L = s.map fun e => (lastAssign L e.id).getD e := by
  induction L generalizing s with
  | nil =>
    simp [upsertList_nil, lastAssign]
  | cons x T ih =>
    rw [upsertList_cons,
        upsertItem_of_keyMem (h x (List.mem_cons_self x T))]
    have hT : ∀ y ∈ T, keyMem (s.map fun e => if e.id = x.id then x else e) y.id := by
      intro y hy
      rw [← upsertItem_of_keyMem (h x (List.mem_cons_self x T)),
          keyMem_upsertItem]
      exact Or.inl (h y (List.mem_cons_of_mem x hy))
    rw [ih _ hT, List.map_map]
    apply List.map_congr_left
    intro e _
    have hid : (if e.id = x.id then x else e).id = e.id := by
      by_cases hex : e.id = x.id
      · rw [if_pos hex, hex]
      · rw [if_neg hex]
    simp only [Function.comp_apply, hid]
    rcases hL : lastAssign T e.id with _ | z
    · unfold lastAssign
      rw [hL]
      simp only [Option.getD_none]
      by_cases hex : e.id = x.id
      · rw [if_pos hex, if_pos hex.symm]
        simp
      · rw [if_neg hex, if_neg (fun hx => hex hx.symm)]
        simp
    · unfold lastAssign
      rw [hL]
      simp

theorem upsertList_idem (s : List IndexedItem) (L : List IndexedItem) :
    upsertList (upsertList s L) L = upsertList s L := by
  have hAll : ∀ y ∈ L, keyMem (upsertList s L) y.id := fun y hy =>
    (keyMem_upsertList s L y.id).mpr (Or.inr ⟨y, hy, rfl⟩)
  rw [upsertList_eq_map_of_all L _ hAll]
  have : ∀ e ∈ upsertList s L, (lastAssign L e.id).getD e = e := by
    intro e he
    rcases hL : lastAssign L e.id with _ | z
    · simp
    · simp [entry_eq_lastAssign he hL]
  calc (upsertList s L).map (fun e => (lastAssign L e.id).getD e)
      = (upsertList s L).map id := List.map_congr_left this
    _ = upsertList s L := List.map_id _

/-! ### Spec-side chunker (for the refinement claim about §4.1) -/

/-- One subsequent segment as the spec words it (§4.1): the segment's first
line is the section title, the remaining text is the body, and an empty body
yields no unit.  The pair carries the 1-based position of the segment, which
determines the item id. -/
def specSectionItem (t : MemoryItemType) (src fn : String) (is : Nat × String) :
    Option MemoryItem :=
  let title := jsTrim ⟨is.2.data.takeWhile fun ch => ch != '\n'⟩
  let body := jsTrim ⟨is.2.data.drop (is.2.data.takeWhile fun ch => ch != '\n').length⟩
  if body = "" then none
  else
    some ⟨mtStr t ++ "-" ++ fn ++ "-" ++ toString is.1, t,
          "## " ++ title ++ "\n\n" ++ body, src, some title, none⟩

/-- The chunker as spec §4.1 words it: split on `## ` line starts; the first
segment becomes the preamble unit if it has non-whitespace content; each
subsequent segment, taken with its position, becomes a unit unless its body
is empty. -/
def specChunkItems (filePath content : String) (t : MemoryItemType) : List MemoryItem :=
  let filename := jsBasename filePath
  let segs := splitMdSections content
  (if jsTrim (segs.headD "") = "" then []
   else
     [⟨mtStr t ++ "-" ++ filename ++ "-preamble", t, jsTrim (segs.headD ""),
       filePath, some "preamble", none⟩])
  ++ (List.enumFrom 1 (segs.drop 1)).filterMap (specSectionItem t filePath filename)

theorem sectionLoop_eq_filterMap (t : MemoryItemType) (src fn : String)
    (i : Nat) (L : List String) :
    sectionLoop t src fn i L
      = (List.enumFrom i L).filterMap (specSectionItem t src fn) := by
  induction L generalizing i with
  | nil => rfl
  | cons s rest ih =>
    show (if s = "" then sectionLoop t src fn (i + 1) rest
          else _) = List.filterMap _ ((i, s) :: List.enumFrom (i + 1) rest)
    by_cases hs : s = ""
    · rw [if_pos hs, ih, List.filterMap_cons_none]
      subst hs
      rfl
    · rw [if_neg hs]
      by_cases hb : jsTrim ⟨s.data.drop (s.data.takeWhile fun ch => ch != '\n').length⟩ = ""
      · rw [if_pos hb, ih, List.filterMap_cons_none]
        show specSectionItem t src fn (i, s) = none
        unfold specSectionItem
        rw [if_pos hb]
      · have hsome : specSectionItem t src fn (i, s)
            = some ⟨mtStr t ++ "-" ++ fn ++ "-" ++ toString i, t,
                    "## " ++ jsTrim ⟨s.data.takeWhile fun ch => ch != '\n'⟩ ++ "\n\n" ++
                      jsTrim ⟨s.data.drop (s.data.takeWhile fun ch => ch != '\n').length⟩,
                    src, some (jsTrim ⟨s.data.takeWhile fun ch => ch != '\n'⟩), none⟩ := by
          unfold specSectionItem
          rw [if_neg hb]
        rw [if_neg hb, ih, List.filterMap_cons_some hsome]

/-! ### Claim theorems -/

/-- C4: indexing the same file content twice in a row via `indexFile` leaves
the store unchanged relative to a single pass — the second pass upserts the
very same deterministically derived `(id, vector, metadata)` triples, so it
overwrites in place and the item count for that file's ids does not grow. -/
theorem indexFile_twice_is_once (embedF : String → List ℚ)
    (store : List IndexedItem) (filePath content : String) (t : MemoryItemType) :
    indexFileStore embedF (indexFileStore embedF store filePath content t)
        filePath content t
      = indexFileStore embedF store filePath content t
    ∧ (indexFileStore embedF (indexFileStore embedF store filePath content t)
        filePath content t).length
      = (indexFileStore embedF store filePath content t).length := by
  have h := upsertList_idem store ((indexFileItems filePath content t).map (toIndexed embedF))
  exact ⟨h, congrArg List.length h⟩

/-- C6: a topic-typed `indexFile` bypasses chunking entirely: whatever the
content (however many `## ` headings it contains), exactly one item is
produced, its id derived from the filename alone, with no section field,
and the returned item count is 1. -/
theorem topic_file_single_item (filePath content : String) :
    indexFileItems filePath content .topic
      = [⟨"topic-" ++ jsBasename filePath, .topic, jsTrim content, filePath, none, none⟩]
    ∧ indexFileCount filePath content .topic = 1 := by
  exact ⟨rfl, rfl⟩

/-- C5: for every non-topic type the chunker of `indexFile` behaves as
spec §4.1 describes (`specChunkItems`): a preamble item exactly when the
text before the first `## ` heading has non-whitespace content, one item per
subsequent section titled by its first line, empty bodies dropped; and on
the spec's scenario input the result is exactly the two items `Status` and
`Risks` with no preamble item. -/
theorem chunker_matches_spec (filePath content : String) (t : MemoryItemType)
    (ht : t ≠ .topic) :
    indexFileItems filePath content t = specChunkItems filePath content t
    ∧ indexFileItems "project.md" "## Status\nActive.\n## Risks\nNone yet." .project
      = [⟨"project-project.md-1", .project, "## Status\n\nActive.", "project.md",
          some "Status", none⟩,
         ⟨"project-project.md-2", .project, "## Risks\n\nNone yet.", "project.md",
          some "Risks", none⟩] := by
  constructor
  · unfold indexFileItems specChunkItems
    rw [if_neg ht]
    dsimp only
    rw [sectionLoop_eq_filterMap]
    by_cases hp : jsTrim ((splitMdSections content).headD "") = ""
    · rw [if_pos hp, if_neg (fun h => h hp)]
    · rw [if_neg hp, if_pos hp]
  · decide

/-- C5 witness: the theorem instantiated at the project type (which is not
the topic type) and a concrete file. -/
theorem chunker_matches_spec_witness :
    (MemoryItemType.project ≠ MemoryItemType.topic)
    ∧ indexFileItems "notes/p.md" "intro\n## A\nbody" .project
      = specChunkItems "notes/p.md" "intro\n## A\nbody" .project :=
  ⟨by decide, (chunker_matches_spec "notes/p.md" "intro\n## A\nbody" .project (by decide)).1⟩

/-- C7: `searchMemory` with `{limit: n}` returns at most `n` primary
results — it over-fetches `n * 2` nearest neighbours, filters post hoc, and
truncates the filtered list to `n`. -/
theorem search_respects_limit (embedF : String → List ℚ) (sim : List ℚ → List ℚ → ℚ)
    (store : List IndexedItem) (q : String) (n : Nat)
    (ty? : Option MemoryItemType) (since? : Option String) (inc? : Option Bool) :
    (searchMemory embedF sim store q ⟨some n, ty?, since?, inc?⟩).length ≤ n := by
  unfold searchMemory
  by_cases hs : store.isEmpty
  · rw [if_pos hs]
    exact Nat.zero_le n
  · rw [if_neg hs]
    dsimp only
    rw [List.length_map]
    unfold searchTop
    dsimp only
    rw [List.length_take]
    exact min_le_left n _

/-- C8: with a `type` filter, every result returned by `searchMemory` has
exactly the requested type (the post-retrieval filter rejects every other
item). -/
theorem search_type_filter_correct (embedF : String → List ℚ)
    (sim : List ℚ → List ℚ → ℚ) (store : List IndexedItem) (q : String)
    (t : MemoryItemType) (lim? : Option Nat) (since? : Option String)
    (inc? : Option Bool) :
    ∀ res ∈ searchMemory embedF sim store q ⟨lim?, some t, since?, inc?⟩,
      res.type = t := by
  intro res hres
  unfold searchMemory at hres
  by_cases hs : store.isEmpty
  · rw [if_pos hs] at hres
    simp at hres
  · rw [if_neg hs] at hres
    dsimp only at hres
    obtain ⟨r, hr, rfl⟩ := List.mem_map.mp hres
    show r.item.metadata.type = t
    unfold searchTop at hr
    dsimp only at hr
    rw [if_pos (by simp)] at hr
    have hf := (List.mem_filter.mp (List.mem_of_mem_take hr)).2
    unfold searchFilter at hf
    dsimp only at hf
    simp only [Bool.and_eq_true] at hf
    exact of_decide_eq_true hf.1

/-- C3: for every `searchMemory` response and every primary result carrying
a related list: the list has at most 3 entries drawn from the fixed fan-out
of (at most) 8 candidates of the second nearest-neighbour query on the
result's own content embedding, every entry scores strictly above the 0.4
floor, and no entry's id coincides with the id of any primary result of the
same response (the result itself included). -/
theorem search_related_constraints (embedF : String → List ℚ)
    (sim : List ℚ → List ℚ → ℚ) (store : List IndexedItem) (q : String)
    (opts : SearchOptions) :
    ∀ res ∈ searchMemory embedF sim store q opts,
      ∀ rl, res.related? = some rl →
        rl.length ≤ 3 ∧
        (queryItems sim store (embedF res.content) 8).length ≤ 8 ∧
        ∀ rel ∈ rl,
          simFloor < rel.score ∧
          (∀ res2 ∈ searchMemory embedF sim store q opts, res2.id? ≠ some rel.id) ∧
          ∃ cand ∈ queryItems sim store (embedF res.content) 8,
            rel = toRelatedItem cand := by
  intro res hres rl hrl
  unfold searchMemory at hres
  by_cases hs : store.isEmpty
  · rw [if_pos hs] at hres
    simp at hres
  · rw [if_neg hs] at hres
    dsimp only at hres
    obtain ⟨r, hr, rfl⟩ := List.mem_map.mp hres
    dsimp only at hrl ⊢
    by_cases hinc : opts.includeRelated?.getD true
    · rw [if_pos hinc] at hrl
      have hrl' := (Option.some_inj.mp hrl).symm
      subst hrl'
      unfold relatedFor
      dsimp only
      refine ⟨?_, ?_, ?_⟩
      · rw [List.length_map, List.length_take]
        exact le_trans (min_le_left 3 _) (le_refl 3)
      · unfold queryItems
        rw [List.length_take]
        exact min_le_left 8 _
      · intro rel hrel
        obtain ⟨cand, hcand, rfl⟩ := List.mem_map.mp hrel
        have hmem := List.mem_filter.mp (List.mem_of_mem_take hcand)
        have hQ8 : cand ∈ queryItems sim store (embedF r.item.metadata.content) 8 :=
          hmem.1
        have hp := hmem.2
        simp only [Bool.and_eq_true, Bool.not_eq_true', decide_eq_false_iff_not,
          decide_eq_true_eq] at hp
        obtain ⟨⟨hne, hnotmem⟩, hscore⟩ := hp
        refine ⟨hscore, ?_, ⟨cand, hQ8, rfl⟩⟩
        intro res2 hres2
        unfold searchMemory at hres2
        rw [if_neg hs] at hres2
        dsimp only at hres2
        obtain ⟨r2, hr2, rfl⟩ := List.mem_map.mp hres2
        show some r2.item.id ≠ some (toRelatedItem cand).id
        intro heq
        apply hnotmem
        have hcid : (toRelatedItem cand).id = cand.item.id := rfl
        rw [hcid] at heq
        rw [← Option.some_inj.mp heq]
        exact List.mem_map.mpr ⟨r2, hr2, rfl⟩
    · rw [if_neg hinc] at hrl
      exact absurd hrl (by simp)

/-- C10: the `since` option changes the post-retrieval filter only for
items that carry a timestamp — the filter with `since` equals the filter
without it conjoined with the timestamp test, and an item without a
timestamp passes identically with or without `since`. -/
theorem since_filter_only_timestamped (ty? : Option MemoryItemType) (s : String)
    (r : ScoredItem) :
    (searchFilter ty? (some s) r
      = (searchFilter ty? none r &&
         match r.item.metadata.timestamp? with
         | some ts => !(decide (ts < s))
         | none => true))
    ∧ (r.item.metadata.timestamp? = none →
        searchFilter ty? (some s) r = searchFilter ty? none r) := by
  constructor
  · cases hts : r.item.metadata.timestamp? with
    | none => cases ty? <;> simp [searchFilter, hts]
    | some ts => cases ty? <;> simp [searchFilter, hts]
  · intro hnone
    cases ty? <;> simp [searchFilter, hnone]

/-- C9: looking up an id that is not in the index returns a null entry and
an empty related list instead of raising. -/
theorem missing_id_returns_empty (embedF : String → List ℚ)
    (sim : List ℚ → List ℚ → ℚ) (store : List IndexedItem) (id : String)
    (h : getItem store id = none) :
    getEntryWithRelated embedF sim store id = (none, []) := by
  unfold getEntryWithRelated
  rw [h]

/-- C2 (amended): for an id present in the index, `getEntryWithRelated`
returns the stored entry (score pinned to 1) plus related items from a
nearest-neighbour query on the entry's own content embedding with fan-out 6,
excluding the entry's own id, keeping only scores strictly above 0.4, capped
at 5 — each related record carrying id, type, a 100-character snippet and
score, with no source field. -/
theorem getEntry_found_behavior (embedF : String → List ℚ)
    (sim : List ℚ → List ℚ → ℚ) (store : List IndexedItem) (id : String)
    (item : IndexedItem) (h : getItem store id = some item) :
    (getEntryWithRelated embedF sim store id).1
      = some ⟨some item.id, item.metadata.content, item.metadata.source,
              item.metadata.sec?, item.metadata.timestamp?, item.metadata.type,
              1, none⟩
    ∧ (getEntryWithRelated embedF sim store id).2.length ≤ 5
    ∧ ∀ rel ∈ (getEntryWithRelated embedF sim store id).2,
        rel.id ≠ id ∧ simFloor < rel.score ∧
        ∃ cand ∈ queryItems sim store (embedF item.metadata.content) 6,
          rel = ⟨cand.item.id, cand.item.metadata.type,
                 jsSnippet 100 cand.item.metadata.content, cand.score⟩ := by
  unfold getEntryWithRelated
  rw [h]
  dsimp only
  refine ⟨rfl, ?_, ?_⟩
  · rw [List.length_map, List.length_take]
    exact min_le_left 5 _
  · intro rel hrel
    obtain ⟨cand, hcand, rfl⟩ := List.mem_map.mp hrel
    have hmem := List.mem_filter.mp (List.mem_of_mem_take hcand)
    have hp := hmem.2
    simp only [Bool.and_eq_true, Bool.not_eq_true', decide_eq_false_iff_not,
      decide_eq_true_eq] at hp
    exact ⟨hp.1, hp.2, ⟨cand, hmem.1, rfl⟩⟩

/-! ### Journal prefix lemma (for C1) -/

theorem journalScan_takeWhile (parse : String → Option JournalEntry)
    (lines : List String) :
    journalScan parse lines
      = (lines.takeWhile fun l => (parse l).isSome).filterMap parse
    ∧ (journalScan parse lines).length
      = ((lines.takeWhile fun l => (parse l).isSome)).length := by
  induction lines with
  | nil => exact ⟨rfl, rfl⟩
  | cons l rest ih =>
    cases hp : parse l with
    | some e =>
      have ht : ((l :: rest).takeWhile fun x => (parse x).isSome)
          = l :: (rest.takeWhile fun x => (parse x).isSome) :=
        List.takeWhile_cons_of_pos (by simp [hp])
      constructor
      · simp only [journalScan, hp, ht, List.filterMap_cons_some hp, ih.1]
      · simp only [journalScan, hp, ht, List.length_cons, ih.2]
    | none =>
      have ht : ((l :: rest).takeWhile fun x => (parse x).isSome) = [] :=
        List.takeWhile_cons_of_neg (by simp [hp])
      constructor
      · simp only [journalScan, hp, ht, List.filterMap_nil]
      · simp only [journalScan, hp, ht, List.length_nil]

/-- C1 (amended): during a rebuild the journal loop indexes exactly the
longest prefix of lines on which `JSON.parse` succeeds — a malformed line
stops the loop (the surrounding catch swallows the exception), so later
well-formed lines are not indexed; `rebuildIndex` still returns normally
and its item count is the file-derived item count plus the number of
journal records indexed before the first malformed line. -/
theorem rebuild_journal_stops_at_malformed (parse : String → Option JournalEntry)
    (lines : List String) (nonJournalCount : Nat) (content : String) :
    journalScan parse lines
      = (lines.takeWhile fun l => (parse l).isSome).filterMap parse
    ∧ (journalScan parse lines).length
      = ((lines.takeWhile fun l => (parse l).isSome)).length
    ∧ rebuildItemCount nonJournalCount parse (some content)
      = nonJournalCount
        + ((jsLines content).takeWhile fun l => (parse l).isSome).length := by
  refine ⟨(journalScan_takeWhile parse lines).1, (journalScan_takeWhile parse lines).2, ?_⟩
  unfold rebuildItemCount rebuildJournalCount
  dsimp only
  rw [(journalScan_takeWhile parse (jsLines content)).2]

/-- C1 counterexample: in `cJournal` the line after the malformed one is
well-formed (`cParse` succeeds on it) yet the rebuild loop never indexes
it — the scan stops at the malformed line, and the rebuild item count is 1,
not 2. -/
theorem malformed_line_aborts_rest :
    cParse gLine2 = some gEntry2
    ∧ gLine2 ∈ jsLines cJournal
    ∧ journalScan cParse (jsLines cJournal) = [gEntry1]
    ∧ rebuildItemCount 0 cParse (some cJournal) = 1 := by
  exact ⟨rfl, by decide, by decide, by decide⟩

/-- C2 counterexample: on the six-item store `cStore6`,
`getEntryWithRelated` returns five related items for `e0` — refuting the
claimed cap of 3 (the source caps this expansion at 5, from a fan-out of
6). -/
theorem getEntry_cap_exceeds_three :
    ((getEntryWithRelated cEmbed cSim cStore6 "e0").2).length = 5
    ∧ ¬((getEntryWithRelated cEmbed cSim cStore6 "e0").2).length ≤ 3 := by
  exact ⟨by decide, by decide⟩

/-- C2 witness: the amended theorem applied to the concrete store
`cStore6` at the present id `e0`. -/
theorem getEntry_found_behavior_witness :
    (getItem cStore6 "e0" = some itE0)
    ∧ (getEntryWithRelated cEmbed cSim cStore6 "e0").2.length ≤ 5 := by
  have h : getItem cStore6 "e0" = some itE0 := by decide
  exact ⟨h, (getEntry_found_behavior cEmbed cSim cStore6 "e0" itE0 h).2.1⟩

/-- C3 witness: the theorem applied to the concrete one-item store, whose
single result carries the (empty) related list `some []`. -/
theorem search_related_constraints_witness :
    (resA ∈ searchMemory cEmbed cSim cStore1 "q" ⟨none, none, none, none⟩)
    ∧ ([] : List RelatedItem).length ≤ 3 := by
  have hmem : resA ∈ searchMemory cEmbed cSim cStore1 "q" ⟨none, none, none, none⟩ := by
    decide
  exact ⟨hmem,
    (search_related_constraints cEmbed cSim cStore1 "q" ⟨none, none, none, none⟩
      resA hmem [] rfl).1⟩

/-- C8 witness: the theorem applied to a concrete journal-filtered search
returning one result. -/
theorem search_type_filter_witness :
    (resA ∈ searchMemory cEmbed cSim cStore1 "q" ⟨none, some .journal, none, none⟩)
    ∧ resA.type = .journal := by
  have hmem : resA ∈ searchMemory cEmbed cSim cStore1 "q"
      ⟨none, some .journal, none, none⟩ := by decide
  exact ⟨hmem,
    search_type_filter_correct cEmbed cSim cStore1 "q" .journal none none none
      resA hmem⟩

/-- C9 witness: the theorem applied to the empty store at an absent id. -/
theorem missing_id_witness :
    (getItem ([] : List IndexedItem) "nope" = none)
    ∧ getEntryWithRelated cEmbed cSim [] "nope" = (none, []) :=
  ⟨rfl, missing_id_returns_empty cEmbed cSim [] "nope" rfl⟩

/-- C10 witness: the theorem applied to a concrete timestamp-less scored
item and a concrete `since` bound. -/
theorem since_filter_witness :
    (rNoTs.item.metadata.timestamp? = none)
    ∧ searchFilter none (some "2025-01-01") rNoTs = searchFilter none none rNoTs :=
  ⟨rfl, (since_filter_only_timestamped none "2025-01-01" rNoTs).2 rfl⟩

end Innie
